import Mathlib

/-!
# Memory game (`src/main.js`, class `MemoryGame`)

A shallow embedding of the game object of `src/main.js`.

* The fields of the JavaScript object (`cards`, `flippedCards`, `matchedPairs`,
  `totalMoves`, `isProcessing`, `selectedTheme`, `themes`, `symbols`) are fields of `Game`.
* The part of the DOM the game logic reads back is kept as well: the tiles of `#card-grid`
  with their class marks `flipped` and `matched`, and the `hidden` mark of the two modals.
  Text contents written by `updateStats` and the sounds' playback are not state; the sound
  cues are returned as a list of `Signal`s.
* `Math.random` is an input: `rand i` is the value `Math.floor(Math.random() * (i + 1))`
  drawn at step `i` of `shuffleCards`, which lies in `[0, i]`.
* `setTimeout` callbacks are kept in `Game.timers` until they expire; `fireTimer s k` is the
  expiration of the `k`-th pending one.  Any pending timer may be the next to expire.
* JavaScript objects have identity.  `createCards` allocates new card objects and
  `renderCards` new tile elements, so an object captured by a closure or stored in
  `flippedCards` is identified by the generation (`deckGen`, `domGen`) that allocated it and by
  its position; a write to an object of an earlier generation does not reach the current deck
  or grid.
* A `TypeError` raised by reading a property of `undefined` or `null` is reported in
  `Result.threw`, together with the state the object is left in.
* The operations are the method calls.  Event listeners (`bindEvents`, `bindThemeEvents`),
  the `display` style of the header and the board, and the page itself are not modelled.
-/

namespace MemoryGame

/-- A card object `{ id, symbol, matched }` (createCards, lines 83-84). -/
structure Card (σ : Type) where
  id : Nat
  symbol : σ
  matched : Bool
deriving DecidableEq, Repr

/-- The class marks of a tile element of `#card-grid` (`flipped`, `matched`). -/
structure CardElement where
  flipped : Bool
  matched : Bool
deriving DecidableEq, Repr

/-- An entry `{ index, element }` of `flippedCards` (line 134).  The element is the tile
with `data-index = index` of the rendering `domGen`. -/
structure Flipped where
  index : Nat
  domGen : Nat
deriving DecidableEq, Repr

/-- A pending `setTimeout` callback with what its closure captured.
`resolveMatch` is the callback of lines 154-169: it captured `first`, `second` and the card
objects `firstCard`, `secondCard`, which are the cards at these positions of the deck
generation `deckGen`.  `resolveMismatch` is the callback of lines 173-178, and `win` the one of
line 167. -/
inductive Timer where
  | resolveMatch (first second : Flipped) (deckGen : Nat)
  | resolveMismatch (first second : Flipped)
  | win
deriving DecidableEq, Repr

/-- The sound cues of `playSound`. -/
inductive Signal where
  | flip
  | correct
  | wrong
deriving DecidableEq, Repr

/-- The game object together with the DOM marks it reads and its pending timers. -/
structure Game (σ : Type) where
  cards : List (Card σ)
  flippedCards : List Flipped
  matchedPairs : Nat
  totalMoves : Nat
  isProcessing : Bool
  selectedTheme : Option String
  themes : List (String × List σ)
  symbols : List σ
  grid : List CardElement
  themeModalHidden : Bool
  winModalHidden : Bool
  deckGen : Nat
  domGen : Nat
  timers : List Timer
deriving DecidableEq, Repr

/-- What a method call leaves behind: the state, the cues played, and whether it ended in a
`TypeError`. -/
structure Result (σ : Type) where
  state : Game σ
  signals : List Signal
  threw : Bool
deriving DecidableEq, Repr

/-- The theme table of the constructor (lines 18-26). -/
def themeTable : List (String × List String) :=
  [("animals", ["🐈", "🐄", "🐒", "🦘", "🐘", "🦒", "🐪", "🐅"]),
   ("cars", ["🚗", "🚙", "🏍️", "🚲", "✈️", "🚁", "⛵", "🪂"]),
   ("flowers", ["🌼", "🌸", "🌻", "🌷", "🌹", "🍁", "🏵️", "🪻"]),
   ("fruits", ["🍎", "🍒", "🍇", "🍉", "🍊", "🍓", "🍍", "🥭"]),
   ("galaxy", ["🌙", "☀️", "🪐", "⭐", "🌤️", "🌦️", "🌧️", "❄️"]),
   ("vegetables", ["🫛", "🥕", "🫚", "🍆", "🥒", "🍅", "🌶️", "🧅"])]

/-- Property read `this.themes[theme]` on a table that lists each name once: `none` is
`undefined`. -/
def lookupTheme {σ : Type} (themes : List (String × List σ)) (theme : String) :
    Option (List σ) :=
  (themes.find? (fun p => p.1 == theme)).map (fun p => p.2)

/-- Array read `xs[index]` for an integer `index`: `none` is `undefined` (and, for the grid,
the `null` of a `querySelector` that finds no tile with this `data-index`). -/
def nth? {α : Type} (xs : List α) (index : Int) : Option α :=
  if index < 0 then none else xs[index.toNat]?

/-- The loop body of `createCards` (lines 81-85): two cards per symbol, with ids
`index * 2` and `index * 2 + 1`. -/
def pairCards {σ : Type} : Nat → List σ → List (Card σ)
  | _, [] => []
  | index, symbol :: rest =>
      ⟨index * 2, symbol, false⟩ :: ⟨index * 2 + 1, symbol, false⟩ ::
        pairCards (index + 1) rest

/-- The destructuring swap of line 94.  Both positions are inside the array whenever the
draw lies in `[0, i]`, which is all `Math.floor(Math.random() * (i + 1))` yields; for other
positions the array is left as it is. -/
def swapAt {α : Type} (cs : List α) (i j : Nat) : List α :=
  match cs[i]?, cs[j]? with
  | some a, some b => (cs.set i b).set j a
  | _, _ => cs

/-- The loop of `shuffleCards` (lines 92-95) from counter `i` down to 1. -/
def shuffleLoop {α : Type} (rand : Nat → Nat) : Nat → List α → List α
  | 0, cs => cs
  | i + 1, cs => shuffleLoop rand i (swapAt cs (i + 1) (rand (i + 1)))

/-- The array left by `shuffleCards` (lines 91-96). -/
def shuffleCards {α : Type} (rand : Nat → Nat) (cs : List α) : List α :=
  shuffleLoop rand (cs.length - 1) cs

/-- The draw sequences of one shuffle of `n` cards: for each step `i = 1 .. n - 1` (stored at
`i - 1`) a value of `[0, i]`. -/
def Draws (n : Nat) : Type := (i : Fin (n - 1)) → Fin (i.val + 2)

instance (n : Nat) : Fintype (Draws n) := by unfold Draws; infer_instance

instance (n : Nat) : DecidableEq (Draws n) := by unfold Draws; infer_instance

/-- A draw sequence as the random source read by `shuffleLoop`. -/
def Draws.toRand {n : Nat} (d : Draws n) : Nat → Nat := fun i =>
  if h : 0 < i ∧ i < n then (d ⟨i - 1, by omega⟩).val else 0

/-- Method `createCards` (lines 78-89). -/
def createCards {σ : Type} (rand : Nat → Nat) (s : Game σ) : Game σ :=
  { s with cards := shuffleCards rand (pairCards 0 s.symbols), deckGen := s.deckGen + 1 }

/-- Method `renderCards` (lines 98-117): one fresh tile per card, without marks. -/
def renderCards {σ : Type} (s : Game σ) : Game σ :=
  { s with grid := s.cards.map (fun _ => ⟨false, false⟩), domGen := s.domGen + 1 }

/-- Method `init` (lines 71-76). -/
def init {σ : Type} (rand : Nat → Nat) (s : Game σ) : Game σ :=
  renderCards (createCards rand s)

/-- Method `showThemeSelection` (lines 34-44). -/
def showThemeSelection {σ : Type} (s : Game σ) : Game σ :=
  { s with themeModalHidden := false }

/-- The constructor (lines 2-32) for a theme table whose default alphabet is `animals`.  The
win modal starts hidden (its initial class comes from the page). -/
def construct {σ : Type} (themes : List (String × List σ)) (animals : List σ) : Game σ :=
  showThemeSelection
    { cards := [], flippedCards := [], matchedPairs := 0, totalMoves := 0,
      isProcessing := false, selectedTheme := none, themes := themes, symbols := animals,
      grid := [], themeModalHidden := true, winModalHidden := true,
      deckGen := 0, domGen := 0, timers := [] }

/-- The object built by `new MemoryGame()` (line 241). -/
def newMemoryGame : Game String :=
  construct themeTable ["🐈", "🐄", "🐒", "🦘", "🐘", "🦒", "🐪", "🐅"]

/-- Method `selectTheme` (lines 56-69).  `none`: `this.themes[theme]` is `undefined` and
`createCards` ends in a `TypeError` at `this.symbols.forEach`. -/
def selectTheme {σ : Type} (rand : Nat → Nat) (s : Game σ) (theme : String) :
    Option (Game σ) :=
  match lookupTheme s.themes theme with
  | none => none
  | some symbols =>
      some (init rand { s with selectedTheme := some theme, symbols := symbols,
                               themeModalHidden := true })

/-- Method `newGame` (lines 216-219). -/
def newGame {σ : Type} (s : Game σ) : Game σ :=
  showThemeSelection s

/-- Method `resetGame` (lines 205-214). -/
def resetGame {σ : Type} (rand : Nat → Nat) (s : Game σ) : Game σ :=
  renderCards (createCards rand
    { s with flippedCards := [], matchedPairs := 0, totalMoves := 0, isProcessing := false,
             winModalHidden := true })

/-- Method `checkMatch` (lines 144-180). -/
def checkMatch {σ : Type} [DecidableEq σ] (s : Game σ) : Result σ :=
  let s1 := { s with isProcessing := true }
  match s1.flippedCards with
  | first :: second :: _ =>
      match s1.cards[first.index]?, s1.cards[second.index]? with
      | some firstCard, some secondCard =>
          if firstCard.symbol = secondCard.symbol then
            ⟨{ s1 with timers := s1.timers ++ [Timer.resolveMatch first second s1.deckGen] },
              [Signal.correct], false⟩
          else
            ⟨{ s1 with timers := s1.timers ++ [Timer.resolveMismatch first second] },
              [Signal.wrong], false⟩
      | _, _ => ⟨s1, [], true⟩
  | _ => ⟨s1, [], true⟩

/-- Lines 132-134 of `flipCard`: the tile at `i` gets the mark `flipped` and the entry
`{ index, element }` is pushed on `flippedCards`. -/
def reveal {σ : Type} (s : Game σ) (i : Nat) : Game σ :=
  { s with
    grid := s.grid.modify (fun e => { e with flipped := true }) i,
    flippedCards := s.flippedCards ++ [⟨i, s.domGen⟩] }

/-- Line 138 of `flipCard`: `this.totalMoves++`. -/
def countMove {σ : Type} (s : Game σ) : Game σ :=
  { s with totalMoves := s.totalMoves + 1 }

/-- Method `flipCard` (lines 119-142). -/
def flipCard {σ : Type} [DecidableEq σ] (s : Game σ) (index : Int) : Result σ :=
  if s.isProcessing then ⟨s, [], false⟩
  else
    match nth? s.grid index with
    | none => ⟨s, [], true⟩
    | some cardElement =>
        if cardElement.flipped then ⟨s, [], false⟩
        else
          match nth? s.cards index with
          | none => ⟨s, [], true⟩
          | some card =>
              if card.matched then ⟨s, [], false⟩
              else if s.flippedCards.length ≥ 2 then ⟨s, [], false⟩
              else
                let s1 := reveal s index.toNat
                if s1.flippedCards.length = 2 then
                  let r := checkMatch (countMove s1)
                  ⟨r.state, Signal.flip :: r.signals, r.threw⟩
                else ⟨s1, [Signal.flip], false⟩

/-- The write `card.matched = true` to the card at position `i`. -/
def markCard {σ : Type} (cs : List (Card σ)) (i : Nat) : List (Card σ) :=
  cs.modify (fun c => { c with matched := true }) i

/-- The call `element.classList.add('matched')` on the tile at position `i`. -/
def markTile (g : List CardElement) (i : Nat) : List CardElement :=
  g.modify (fun e => { e with matched := true }) i

/-- The call `element.classList.remove('flipped')` on the tile at position `i`. -/
def unflipTile (g : List CardElement) (i : Nat) : List CardElement :=
  g.modify (fun e => { e with flipped := false }) i

/-- A call on the element of a `flippedCards` entry: it reaches the grid when the element
belongs to the current rendering. -/
def onElement {σ : Type} (s : Game σ) (f : Flipped)
    (op : List CardElement → Nat → List CardElement) : Game σ :=
  if f.domGen = s.domGen then { s with grid := op s.grid f.index } else s

/-- A write to a captured card object: it reaches the deck when the card belongs to the
current deck. -/
def onCard {σ : Type} (s : Game σ) (deckGen : Nat) (i : Nat) : Game σ :=
  if deckGen = s.deckGen then { s with cards := markCard s.cards i } else s

/-- The body of a timer callback. -/
def runTimer {σ : Type} (s : Game σ) : Timer → Game σ
  | Timer.resolveMatch first second deckGen =>
      let s1 := onElement s first markTile
      let s2 := onElement s1 second markTile
      let s3 := onCard s2 deckGen first.index
      let s4 := onCard s3 deckGen second.index
      let s5 := { s4 with matchedPairs := s4.matchedPairs + 1, flippedCards := [],
                          isProcessing := false }
      if s5.matchedPairs = s5.symbols.length then
        { s5 with timers := s5.timers ++ [Timer.win] }
      else s5
  | Timer.resolveMismatch first second =>
      let s1 := onElement s first unflipTile
      let s2 := onElement s1 second unflipTile
      { s2 with flippedCards := [], isProcessing := false }
  | Timer.win => { s with winModalHidden := false }

/-- Expiration of the `k`-th pending timer: it leaves the queue and its callback runs. -/
def fireTimer {σ : Type} (s : Game σ) (k : Nat) : Game σ :=
  match s.timers[k]? with
  | none => s
  | some t => runTimer { s with timers := s.timers.eraseIdx k } t

/-- The inputs of one game: a flip request or the expiration of a pending timer. -/
inductive Event where
  | flip (index : Int)
  | timer (k : Nat)
deriving DecidableEq, Repr

/-- The state after one event. -/
def step {σ : Type} [DecidableEq σ] (s : Game σ) : Event → Game σ
  | Event.flip index => (flipCard s index).state
  | Event.timer k => fireTimer s k

/-- The state after a sequence of events. -/
def run {σ : Type} [DecidableEq σ] (s : Game σ) (events : List Event) : Game σ :=
  events.foldl step s


/-- The number of cards of a deck with `matched = true`. -/
def countMatched {σ : Type} (cs : List (Card σ)) : Nat :=
  cs.countP (fun c => c.matched)

/-- The number of pending win callbacks. -/
def countWin (ts : List Timer) : Nat :=
  ts.count Timer.win

/-- A flip request passes the three guards of `flipCard` (lines 120, 126 and 129): the game is
not processing, the tile exists and is not revealed, the card exists and is not matched, and
fewer than two cards are selected. -/
def accepts {σ : Type} (s : Game σ) (index : Int) : Bool :=
  !s.isProcessing &&
  (match nth? s.grid index with
   | some cardElement => !cardElement.flipped
   | none => false) &&
  (match nth? s.cards index with
   | some card => !card.matched
   | none => false) &&
  decide (s.flippedCards.length < 2)

/-- The event is the expiration of a pending match callback. -/
def isMatchExpiry {σ : Type} (s : Game σ) : Event → Bool
  | Event.timer k =>
      match s.timers[k]? with
      | some (Timer.resolveMatch _ _ _) => true
      | _ => false
  | Event.flip _ => false

/-- The event is the expiration of a pending match or mismatch callback. -/
def isResolution {σ : Type} (s : Game σ) : Event → Bool
  | Event.timer k =>
      match s.timers[k]? with
      | some (Timer.resolveMatch _ _ _) => true
      | some (Timer.resolveMismatch _ _) => true
      | _ => false
  | Event.flip _ => false

/-- The state a game is generated from: nothing selected, both counters zero, not
processing, no timer pending (the constructor's state, line 3-7). -/
def Blank {σ : Type} (s : Game σ) : Prop :=
  s.flippedCards = [] ∧ s.matchedPairs = 0 ∧ s.totalMoves = 0 ∧ s.isProcessing = false ∧
    s.timers = []

/-- The objects a callback captured were allocated no later than the state `s`. -/
def Timer.capturedBy {σ : Type} (t : Timer) (s : Game σ) : Prop :=
  match t with
  | Timer.resolveMatch first second deckGen =>
      first.domGen ≤ s.domGen ∧ second.domGen ≤ s.domGen ∧ deckGen ≤ s.deckGen
  | Timer.resolveMismatch first second => first.domGen ≤ s.domGen ∧ second.domGen ≤ s.domGen
  | Timer.win => True

/-- What holds in every state of one game (from `init` on, without a reset or a new game). -/
structure Inv {σ : Type} (s : Game σ) : Prop where
  grid_len : s.grid.length = s.cards.length
  deck_len : s.cards.length = 2 * s.symbols.length
  pairs : 2 * s.matchedPairs = countMatched s.cards
  sel : ∀ f ∈ s.flippedCards, f.domGen = s.domGen ∧
    (∃ e, s.grid[f.index]? = some e ∧ e.flipped = true) ∧
    (∃ c, s.cards[f.index]? = some c ∧ c.matched = false)
  sel_nodup : (s.flippedCards.map Flipped.index).Nodup
  pending : ∀ t ∈ s.timers, t ≠ Timer.win →
    s.isProcessing = true ∧ ∃ f g, s.flippedCards = [f, g] ∧
      (t = Timer.resolveMatch f g s.deckGen ∨
        (t = Timer.resolveMismatch f g ∧ ∃ c1 c2, s.cards[f.index]? = some c1 ∧
          s.cards[g.index]? = some c2 ∧ c1.symbol ≠ c2.symbol))
  one_pending : (s.timers.filter (fun t => decide (t ≠ Timer.win))).length ≤ 1

theorem swapAt_length {α : Type} (cs : List α) (i j : Nat) :
    (swapAt cs i j).length = cs.length := by
  unfold swapAt
  split <;> simp

theorem swapAt_perm {α : Type} (cs : List α) (i j : Nat) : (swapAt cs i j).Perm cs := by
  classical
  unfold swapAt
  split
  · rename_i a b ha hb
    obtain ⟨hi, rfl⟩ := List.getElem?_eq_some_iff.mp ha
    obtain ⟨hj, rfl⟩ := List.getElem?_eq_some_iff.mp hb
    rw [List.perm_iff_count]
    intro x
    rw [List.count_set _ _ _ _ (by simpa using hj), List.count_set _ _ _ _ hi]
    have h1 : (if cs[i] == x then 1 else 0) ≤ cs.count x := by
      split
      · rename_i h
        have : cs[i] = x := by simpa using h
        exact List.count_pos_iff.mpr (this ▸ List.getElem_mem hi)
      · exact Nat.zero_le _
    have h2 : (if cs[j] == x then 1 else 0) ≤ cs.count x := by
      split
      · rename_i h
        have : cs[j] = x := by simpa using h
        exact List.count_pos_iff.mpr (this ▸ List.getElem_mem hj)
      · exact Nat.zero_le _
    rw [List.getElem_set]
    by_cases hij : i = j
    · subst hij
      simp only [if_true]
      omega
    · simp only [hij, if_false]
      omega
  · exact List.Perm.refl _

theorem swapAt_getElem? {α : Type} (cs : List α) (i j k : Nat)
    (hi : i < cs.length) (hj : j < cs.length) :
    (swapAt cs i j)[k]? = if k = j then cs[i]? else if k = i then cs[j]? else cs[k]? := by
  unfold swapAt
  rw [List.getElem?_eq_getElem hi, List.getElem?_eq_getElem hj]
  simp only [List.getElem?_set, List.length_set]
  by_cases h1 : k = j
  · subst h1; simp [hj]
  · by_cases h2 : k = i
    · subst h2; simp [h1, hi, Ne.symm h1]
    · simp [h1, h2, Ne.symm h1, Ne.symm h2]

theorem shuffleLoop_length {α : Type} (rand : Nat → Nat) (i : Nat) (cs : List α) :
    (shuffleLoop rand i cs).length = cs.length := by
  induction i generalizing cs with
  | zero => rfl
  | succ i ih => simp [shuffleLoop, ih, swapAt_length]

theorem shuffleLoop_perm {α : Type} (rand : Nat → Nat) (i : Nat) (cs : List α) :
    (shuffleLoop rand i cs).Perm cs := by
  induction i generalizing cs with
  | zero => exact List.Perm.refl _
  | succ i ih => exact (ih _).trans (swapAt_perm _ _ _)

theorem shuffleCards_perm {α : Type} (rand : Nat → Nat) (cs : List α) :
    (shuffleCards rand cs).Perm cs := shuffleLoop_perm _ _ _

/-- Positions above the loop counter are never touched again. -/
theorem shuffleLoop_getElem?_above {α : Type} (rand : Nat → Nat) (hr : ∀ i, rand i ≤ i)
    (i : Nat) (cs : List α) (hi : i < cs.length) (k : Nat) (hk : i < k) :
    (shuffleLoop rand i cs)[k]? = cs[k]? := by
  induction i generalizing cs with
  | zero => rfl
  | succ i ih =>
    simp only [shuffleLoop]
    rw [ih _ (by rw [swapAt_length]; omega) (by omega)]
    have := hr (i + 1)
    rw [swapAt_getElem? _ _ _ _ hi (by omega)]
    rw [if_neg (by omega), if_neg (by omega)]

/-- The loop only reads the draws of the steps it executes. -/
theorem shuffleLoop_congr {α : Type} (r r' : Nat → Nat) (i : Nat) (cs : List α)
    (h : ∀ k, 0 < k → k ≤ i → r k = r' k) : shuffleLoop r i cs = shuffleLoop r' i cs := by
  induction i generalizing cs with
  | zero => rfl
  | succ i ih =>
    simp only [shuffleLoop]
    rw [h (i + 1) (by omega) (by omega)]
    exact ih _ (fun k h0 hk => h k h0 (by omega))

theorem shuffleLoop_injective {α : Type} (r r' : Nat → Nat) (hr : ∀ i, r i ≤ i)
    (hr' : ∀ i, r' i ≤ i) (i : Nat) (cs : List α) (hnd : cs.Nodup) (hi : i < cs.length)
    (h : shuffleLoop r i cs = shuffleLoop r' i cs) : ∀ k, 0 < k → k ≤ i → r k = r' k := by
  induction i generalizing cs with
  | zero => intro k h0 hk; omega
  | succ i ih =>
    simp only [shuffleLoop] at h
    have hb := hr (i + 1)
    have hb' := hr' (i + 1)
    have e1 := shuffleLoop_getElem?_above r hr i (swapAt cs (i + 1) (r (i + 1)))
      (by rw [swapAt_length]; omega) (i + 1) (by omega)
    have e2 := shuffleLoop_getElem?_above r' hr' i (swapAt cs (i + 1) (r' (i + 1)))
      (by rw [swapAt_length]; omega) (i + 1) (by omega)
    rw [h, e2] at e1
    rw [swapAt_getElem? _ _ _ _ hi (by omega), swapAt_getElem? _ _ _ _ hi (by omega)] at e1
    have key : cs[r' (i + 1)]? = cs[r (i + 1)]? := by
      by_cases c1 : i + 1 = r' (i + 1) <;> by_cases c2 : i + 1 = r (i + 1)
      · rw [← c1, ← c2]
      · rw [if_pos c1, if_neg c2, if_pos rfl] at e1; rw [← c1]; exact e1
      · rw [if_neg c1, if_pos rfl, if_pos c2] at e1; rw [← c2]; exact e1
      · rw [if_neg c1, if_pos rfl, if_neg c2, if_pos rfl] at e1; exact e1
    have heq : r (i + 1) = r' (i + 1) := by
      rw [List.getElem?_eq_getElem (by omega), List.getElem?_eq_getElem (by omega)] at key
      have := (List.Nodup.getElem_inj_iff hnd).mp (Option.some.inj key)
      exact this.symm
    rw [heq] at h
    have := ih (swapAt cs (i + 1) (r' (i + 1))) ((swapAt_perm _ _ _).nodup_iff.mpr hnd)
      (by rw [swapAt_length]; omega) h
    intro k h0 hk
    by_cases hk' : k = i + 1
    · subst hk'; exact heq
    · exact this k h0 (by omega)


theorem Draws.toRand_le {n : Nat} (d : Draws n) (i : Nat) : d.toRand i ≤ i := by
  unfold Draws.toRand
  split
  · rename_i h
    have := (d ⟨i - 1, by omega⟩).isLt
    simp only at this
    omega
  · exact Nat.zero_le _

theorem Draws.ext_of_toRand {n : Nat} (d d' : Draws n)
    (h : ∀ k, 0 < k → k ≤ n - 1 → d.toRand k = d'.toRand k) : d = d' := by
  have key : ∀ (e : Draws n) (i : Fin (n - 1)), e.toRand (i.val + 1) = (e i).val := by
    intro e i
    have hi := i.isLt
    unfold Draws.toRand
    rw [dif_pos (by omega)]
    rfl
  funext i
  have hi := i.isLt
  have := h (i.val + 1) (by omega) (by omega)
  rw [key, key] at this
  exact Fin.ext this

theorem prod_range_add_two (m : Nat) : (∏ i in Finset.range m, (i + 2)) = (m + 1).factorial := by
  induction m with
  | zero => rfl
  | succ m ih => rw [Finset.prod_range_succ, ih, Nat.factorial_succ (m + 1)]; ring

theorem card_draws (n : Nat) : Fintype.card (Draws n) = n.factorial := by
  unfold Draws
  rw [Fintype.card_pi]
  simp only [Fintype.card_fin]
  rw [Fin.prod_univ_eq_prod_range (fun i => i + 2) (n - 1), prod_range_add_two]
  cases n with
  | zero => rfl
  | succ n => rfl

theorem shuffleCards_injective {α : Type} (cs : List α) (hnd : cs.Nodup)
    (d d' : Draws cs.length) (h : shuffleCards d.toRand cs = shuffleCards d'.toRand cs) :
    d = d' := by
  rcases Nat.eq_zero_or_pos cs.length with h0 | h0
  · funext i
    have := i.isLt
    omega
  · apply Draws.ext_of_toRand
    exact shuffleLoop_injective _ _ d.toRand_le d'.toRand_le _ cs hnd (by omega) h

theorem shuffleCards_surjective {α : Type} (cs : List α) (hnd : cs.Nodup)
    (l : List α) (hl : l.Perm cs) : ∃ d : Draws cs.length, shuffleCards d.toRand cs = l := by
  classical
  let f : Draws cs.length → List α := fun d => shuffleCards d.toRand cs
  have hinj : Function.Injective f := fun d d' h => shuffleCards_injective cs hnd d d' h
  have hsub : Finset.univ.image f ⊆ cs.permutations.toFinset := by
    intro x hx
    obtain ⟨d, -, rfl⟩ := Finset.mem_image.mp hx
    exact List.mem_toFinset.mpr (List.mem_permutations.mpr (shuffleCards_perm _ _))
  have hcard : cs.permutations.toFinset.card ≤ (Finset.univ.image f).card := by
    rw [Finset.card_image_of_injective _ hinj, Finset.card_univ, card_draws,
      List.toFinset_card_of_nodup (List.nodup_permutations cs hnd), List.length_permutations]
  have heq := Finset.eq_of_subset_of_card_le hsub hcard
  have hmem : l ∈ Finset.univ.image f := by
    rw [heq]
    exact List.mem_toFinset.mpr (List.mem_permutations.mpr hl)
  obtain ⟨d, -, hd⟩ := Finset.mem_image.mp hmem
  exact ⟨d, hd⟩

theorem pairCards_length {σ : Type} (k : Nat) (syms : List σ) :
    (pairCards k syms).length = 2 * syms.length := by
  induction syms generalizing k with
  | nil => rfl
  | cons x rest ih => simp only [pairCards, List.length_cons, ih]; omega

theorem pairCards_ids {σ : Type} (k : Nat) (syms : List σ) :
    (pairCards k syms).map Card.id = List.range' (k * 2) (2 * syms.length) := by
  induction syms generalizing k with
  | nil => rfl
  | cons x rest ih =>
    have h : 2 * (x :: rest).length = 2 * rest.length + 1 + 1 := by
      simp only [List.length_cons]; omega
    rw [h, List.range'_succ, List.range'_succ]
    simp only [pairCards, List.map_cons, ih]
    have : (k + 1) * 2 = k * 2 + 1 + 1 := by omega
    rw [this]

theorem pairCards_unmatched {σ : Type} (k : Nat) (syms : List σ) :
    ∀ c ∈ pairCards k syms, c.matched = false := by
  induction syms generalizing k with
  | nil => intro c hc; simp [pairCards] at hc
  | cons x rest ih =>
    intro c hc
    simp only [pairCards, List.mem_cons] at hc
    rcases hc with rfl | rfl | hc
    · rfl
    · rfl
    · exact ih _ c hc

theorem pairCards_symbol_mem {σ : Type} (k : Nat) (syms : List σ) :
    ∀ c ∈ pairCards k syms, c.symbol ∈ syms := by
  induction syms generalizing k with
  | nil => intro c hc; simp [pairCards] at hc
  | cons x rest ih =>
    intro c hc
    simp only [pairCards, List.mem_cons] at hc
    rcases hc with rfl | rfl | hc
    · exact List.mem_cons_self _ _
    · exact List.mem_cons_self _ _
    · exact List.mem_cons_of_mem _ (ih _ c hc)

theorem pairCards_countP {σ : Type} [DecidableEq σ] (k : Nat) (syms : List σ) (x : σ) :
    (pairCards k syms).countP (fun c => decide (c.symbol = x)) = 2 * syms.count x := by
  induction syms generalizing k with
  | nil => rfl
  | cons y rest ih =>
    simp only [pairCards, List.countP_cons, ih, List.count_cons]
    by_cases h : y = x
    · simp [h]; omega
    · simp [h]

theorem createCards_perm {σ : Type} (rand : Nat → Nat) (s : Game σ) :
    (createCards rand s).cards.Perm (pairCards 0 s.symbols) :=
  shuffleCards_perm rand _

/-- C1. For an alphabet of `N` pairwise-distinct symbols (`N >= 2` included) and every
outcome of the draws, the deck left by `createCards` has exactly `2N` cards, every symbol of
the alphabet is on exactly two cards, no other symbol occurs, the ids are pairwise distinct
and are exactly `0 .. 2N - 1`, and every card has `matched = false`. -/
theorem createCards_deck {σ : Type} [DecidableEq σ] (rand : Nat → Nat) (s : Game σ)
    (hnd : s.symbols.Nodup) :
    (createCards rand s).cards.length = 2 * s.symbols.length ∧
    (∀ x ∈ s.symbols,
      (createCards rand s).cards.countP (fun c => decide (c.symbol = x)) = 2) ∧
    (∀ c ∈ (createCards rand s).cards, c.symbol ∈ s.symbols) ∧
    ((createCards rand s).cards.map Card.id).Nodup ∧
    ((createCards rand s).cards.map Card.id).Perm (List.range (2 * s.symbols.length)) ∧
    (∀ c ∈ (createCards rand s).cards, c.matched = false) := by
  have hp := createCards_perm rand s
  have hids : ((createCards rand s).cards.map Card.id).Perm
      (List.range (2 * s.symbols.length)) := by
    have := hp.map Card.id
    rw [pairCards_ids, Nat.zero_mul, ← List.range_eq_range'] at this
    exact this
  refine ⟨?_, ?_, ?_, ?_, hids, ?_⟩
  · rw [hp.length_eq, pairCards_length]
  · intro x hx
    rw [hp.countP_eq, pairCards_countP, List.count_eq_one_of_mem hnd hx]
  · intro c hc
    exact pairCards_symbol_mem 0 _ c (hp.mem_iff.mp hc)
  · exact hids.nodup_iff.mpr (List.nodup_range _)
  · intro c hc
    exact pairCards_unmatched 0 _ c (hp.mem_iff.mp hc)

/-- C1 at the alphabet `[7, 9]` with every draw `0`: four cards with distinct ids. -/
theorem createCards_deck_witness :
    (createCards (fun _ => 0) (construct [] [7, 9])).cards.length = 2 * 2 ∧
    ((createCards (fun _ => 0) (construct [] [7, 9])).cards.map Card.id).Nodup :=
  ⟨(createCards_deck (fun _ => 0) (construct [] [7, 9]) (by decide)).1,
    (createCards_deck (fun _ => 0) (construct [] [7, 9]) (by decide)).2.2.2.1⟩

/-- C6. With the draw of step `i` an input in `[0, i]`, `shuffleCards` returns a permutation
of the deck, and on a deck of cards with pairwise distinct ids the map from draw sequences
to card orders is a bijection onto the orderings of the deck: every ordering is produced by
exactly one of the `(2N)!` draw sequences. -/
theorem shuffleCards_fair {σ : Type} [DecidableEq σ] (cards : List (Card σ))
    (hid : (cards.map Card.id).Nodup) :
    (∀ d : Draws cards.length, (shuffleCards d.toRand cards).Perm cards) ∧
    (∀ d : Draws cards.length, ∀ i, d.toRand i ≤ i) ∧
    (∀ l : List (Card σ), l.Perm cards →
      ∃! d : Draws cards.length, shuffleCards d.toRand cards = l) ∧
    (∀ l : List (Card σ), l.Perm cards →
      (Finset.univ.filter
        (fun d : Draws cards.length => shuffleCards d.toRand cards = l)).card = 1) ∧
    Fintype.card (Draws cards.length) = cards.length.factorial := by
  have hnd : cards.Nodup := List.Nodup.of_map _ hid
  have huniq : ∀ l : List (Card σ), l.Perm cards →
      ∃! d : Draws cards.length, shuffleCards d.toRand cards = l := by
    intro l hl
    obtain ⟨d, hd⟩ := shuffleCards_surjective cards hnd l hl
    exact ⟨d, hd, fun d' hd' => shuffleCards_injective cards hnd d' d (hd'.trans hd.symm)⟩
  refine ⟨fun d => shuffleCards_perm _ _, fun d => d.toRand_le, huniq, ?_, card_draws _⟩
  intro l hl
  obtain ⟨d, hd, hu⟩ := huniq l hl
  rw [Finset.card_eq_one]
  refine ⟨d, ?_⟩
  ext d'
  simp only [Finset.mem_filter, Finset.mem_univ, true_and, Finset.mem_singleton]
  exact ⟨fun h => hu d' h, fun h => h ▸ hd⟩

/-- C6 at the four-card deck of the alphabet `[7, 9]`: `4!` draw sequences, and the deck
order itself comes from exactly one of them. -/
theorem shuffleCards_fair_witness :
    Fintype.card (Draws (pairCards 0 [7, 9]).length) =
      (pairCards 0 [7, 9]).length.factorial ∧
    ∃! d : Draws (pairCards 0 [7, 9]).length,
      shuffleCards d.toRand (pairCards 0 [7, 9]) = pairCards 0 [7, 9] :=
  ⟨(shuffleCards_fair (pairCards 0 [7, 9]) (by decide)).2.2.2.2,
    (shuffleCards_fair (pairCards 0 [7, 9]) (by decide)).2.2.1 _ (List.Perm.refl _)⟩
theorem markCard_getElem? {σ : Type} (cs : List (Card σ)) (i j : Nat) :
    (markCard cs i)[j]? =
      (fun c => if i = j then { c with matched := true } else c) <$> cs[j]? := by
  unfold markCard
  exact List.getElem?_modify _ _ _ _

theorem markCard_length {σ : Type} (cs : List (Card σ)) (i : Nat) :
    (markCard cs i).length = cs.length := by
  unfold markCard
  exact List.length_modify _ _ _

theorem countP_modify {α : Type} (p : α → Bool) (f : α → α) (l : List α) (i : Nat) (a : α)
    (h : l[i]? = some a) (hp : p a = false) (hq : p (f a) = true) :
    (l.modify f i).countP p = l.countP p + 1 := by
  induction l generalizing i with
  | nil => simp at h
  | cons x rest ih =>
    cases i with
    | zero =>
      simp only [List.getElem?_cons_zero, Option.some.injEq] at h
      subst h
      simp [List.modify_zero_cons, List.countP_cons, hp, hq]
    | succ i =>
      simp only [List.getElem?_cons_succ] at h
      simp only [List.modify_succ_cons, List.countP_cons, ih i h]
      omega

theorem countMatched_markCard {σ : Type} (cs : List (Card σ)) (i : Nat) (c : Card σ)
    (h : cs[i]? = some c) (hc : c.matched = false) :
    countMatched (markCard cs i) = countMatched cs + 1 := by
  unfold countMatched markCard
  exact countP_modify _ _ cs i c h hc rfl

theorem countMatched_le {σ : Type} (cs : List (Card σ)) : countMatched cs ≤ cs.length :=
  List.countP_le_length _

theorem countMatched_eq_length {σ : Type} (cs : List (Card σ)) :
    countMatched cs = cs.length ↔ ∀ c ∈ cs, c.matched = true := by
  unfold countMatched
  exact List.countP_eq_length

theorem others_win (ts : List Timer) (k : Nat) (t : Timer) (hk : ts[k]? = some t)
    (ht : t ≠ Timer.win)
    (hone : (ts.filter (fun t => decide (t ≠ Timer.win))).length ≤ 1) :
    ∀ u ∈ ts.eraseIdx k, u = Timer.win := by
  induction ts generalizing k with
  | nil => simp at hk
  | cons a rest ih =>
    cases k with
    | zero =>
      simp only [List.getElem?_cons_zero, Option.some.injEq] at hk
      subst hk
      simp only [List.eraseIdx_cons_zero]
      rw [List.filter_cons_of_pos (by simpa using ht)] at hone
      simp only [List.length_cons] at hone
      have hnil : rest.filter (fun t => decide (t ≠ Timer.win)) = [] :=
        List.length_eq_zero.mp (by omega)
      intro u hu
      by_contra hne
      have : u ∈ rest.filter (fun t => decide (t ≠ Timer.win)) :=
        List.mem_filter.mpr ⟨hu, by simpa using hne⟩
      rw [hnil] at this
      exact List.not_mem_nil _ this
    | succ k =>
      simp only [List.getElem?_cons_succ] at hk
      simp only [List.eraseIdx_cons_succ]
      have hmem : t ∈ rest.filter (fun t => decide (t ≠ Timer.win)) :=
        List.mem_filter.mpr ⟨List.getElem?_mem hk, by simpa using ht⟩
      have hpos : 0 < (rest.filter (fun t => decide (t ≠ Timer.win))).length :=
        List.length_pos_of_mem hmem
      by_cases ha : a = Timer.win
      · rw [List.filter_cons_of_neg (by simpa using ha)] at hone
        intro u hu
        rcases List.mem_cons.mp hu with rfl | hu
        · exact ha
        · exact ih k hk hone u hu
      · rw [List.filter_cons_of_pos (by simpa using ha)] at hone
        simp only [List.length_cons] at hone
        omega

theorem filter_nonwin_of_all_win (ts : List Timer) (h : ∀ u ∈ ts, u = Timer.win) :
    ts.filter (fun t => decide (t ≠ Timer.win)) = [] := by
  rw [List.filter_eq_nil_iff]
  intro u hu
  simpa using h u hu
theorem checkMatch_frame {σ : Type} [DecidableEq σ] (s : Game σ) :
    (checkMatch s).state =
      { s with isProcessing := true, timers := (checkMatch s).state.timers } := by
  unfold checkMatch
  dsimp only
  repeat' split
  all_goals rfl

theorem checkMatch_totalMoves {σ : Type} [DecidableEq σ] (s : Game σ) :
    (checkMatch s).state.totalMoves = s.totalMoves := by
  rw [checkMatch_frame]

theorem flipCard_state_of_not_accepts {σ : Type} [DecidableEq σ] (s : Game σ) (index : Int)
    (h : accepts s index = false) :
    (flipCard s index).state = s ∧ (flipCard s index).signals = [] := by
  unfold flipCard
  unfold accepts at h
  by_cases hp : s.isProcessing = true
  · simp [hp]
  · simp only [hp, if_false]
    cases hg : nth? s.grid index with
    | none => simp
    | some e =>
      by_cases hf : e.flipped = true
      · simp [hf]
      · simp only [hf, if_false]
        cases hc : nth? s.cards index with
        | none => simp
        | some c =>
          by_cases hm : c.matched = true
          · simp [hm]
          · simp only [hm, if_false]
            by_cases hl : s.flippedCards.length ≥ 2
            · simp [hl]
            · exfalso
              simp [hp, hg, hf, hc, hm] at h
              omega

theorem flipCard_of_accepts {σ : Type} [DecidableEq σ] (s : Game σ) (index : Int)
    (h : accepts s index = true) :
    flipCard s index =
      if (reveal s index.toNat).flippedCards.length = 2 then
        ⟨(checkMatch (countMove (reveal s index.toNat))).state,
          Signal.flip :: (checkMatch (countMove (reveal s index.toNat))).signals,
          (checkMatch (countMove (reveal s index.toNat))).threw⟩
      else ⟨reveal s index.toNat, [Signal.flip], false⟩ := by
  unfold accepts at h
  simp only [Bool.and_eq_true, Bool.not_eq_true', decide_eq_true_eq] at h
  obtain ⟨⟨⟨hp, hg⟩, hc⟩, hl⟩ := h
  unfold flipCard
  cases hg' : nth? s.grid index with
  | none => rw [hg'] at hg; simp at hg
  | some e =>
    rw [hg'] at hg
    cases hc' : nth? s.cards index with
    | none => rw [hc'] at hc; simp at hc
    | some c =>
      rw [hc'] at hc
      simp only [Bool.not_eq_true'] at hg hc
      have hl' : ¬ s.flippedCards.length ≥ 2 := by omega
      simp only [hp, hg, hc, hl', if_false, Bool.false_eq_true]

theorem reveal_length {σ : Type} (s : Game σ) (i : Nat) :
    (reveal s i).flippedCards.length = s.flippedCards.length + 1 := by
  simp [reveal]

/-- C2. A flip request that must be rejected is a no-op: at a position of the deck and of
the grid, if the processing flag is set, or the card is matched, or its tile is revealed, or
two cards are selected already, `flipCard` returns normally, leaves the whole state as it
was and plays no cue. -/
theorem flipCard_rejected {σ : Type} [DecidableEq σ] (s : Game σ) (index : Int)
    (cardElement : CardElement) (card : Card σ)
    (hel : nth? s.grid index = some cardElement) (hcard : nth? s.cards index = some card)
    (h : s.isProcessing = true ∨ card.matched = true ∨ cardElement.flipped = true ∨
      2 ≤ s.flippedCards.length) :
    flipCard s index = ⟨s, [], false⟩ := by
  unfold flipCard
  by_cases hp : s.isProcessing = true
  · simp [hp]
  · simp only [hp, if_false, hel, hcard]
    by_cases hf : cardElement.flipped = true
    · simp [hf]
    · simp only [hf, if_false]
      by_cases hm : card.matched = true
      · simp [hm]
      · simp only [hm, if_false]
        have hl : s.flippedCards.length ≥ 2 := by
          rcases h with h | h | h | h
          · exact absurd h hp
          · exact absurd h hm
          · exact absurd h hf
          · exact h
        simp [hl]

/-- C3. `flipCard` adds exactly 1 to `totalMoves` when the flip is accepted and one card
was selected before, whatever the two symbols; an accepted first flip, a rejected flip and
every timer expiration leave `totalMoves` as it was.  A flip is accepted exactly when the
flip cue is played, and a flip that is not accepted leaves the whole state as it was. -/
theorem totalMoves_counts_comparisons {σ : Type} [DecidableEq σ] (s : Game σ) (index : Int)
    (k : Nat) :
    (accepts s index = true → s.flippedCards.length = 1 →
      (flipCard s index).state.totalMoves = s.totalMoves + 1) ∧
    (accepts s index = true → s.flippedCards.length ≠ 1 →
      (flipCard s index).state.totalMoves = s.totalMoves) ∧
    (accepts s index = false → (flipCard s index).state = s) ∧
    (accepts s index = true ↔ Signal.flip ∈ (flipCard s index).signals) ∧
    (fireTimer s k).totalMoves = s.totalMoves := by
  refine ⟨?_, ?_, ?_, ?_, ?_⟩
  · intro ha hl
    rw [flipCard_of_accepts s index ha, if_pos (by rw [reveal_length, hl])]
    simp only [checkMatch_totalMoves]
    rfl
  · intro ha hl
    rw [flipCard_of_accepts s index ha, if_neg (by rw [reveal_length]; omega)]
    rfl
  · intro ha
    exact (flipCard_state_of_not_accepts s index ha).1
  · constructor
    · intro ha
      rw [flipCard_of_accepts s index ha]
      split <;> simp
    · intro hmem
      by_contra ha
      have := (flipCard_state_of_not_accepts s index (by simpa using ha)).2
      rw [this] at hmem
      exact List.not_mem_nil _ hmem
  · unfold fireTimer
    split
    · rfl
    · rename_i t ht
      cases t with
      | resolveMatch f g d =>
        simp only [runTimer, onElement, onCard]
        repeat' split
        all_goals rfl
      | resolveMismatch f g =>
        simp only [runTimer, onElement]
        repeat' split
        all_goals rfl
      | win => rfl

/-- C9 (as amended). At a position outside the deck `flipCard` changes no state and plays
no cue; it returns normally when the processing flag is set, and it ends in a `TypeError`
when the flag is clear (the grid having one tile per card). -/
theorem flipCard_out_of_range {σ : Type} [DecidableEq σ] (s : Game σ) (index : Int)
    (h : nth? s.cards index = none) :
    (flipCard s index).state = s ∧ (flipCard s index).signals = [] ∧
    (s.isProcessing = true → (flipCard s index).threw = false) ∧
    (s.isProcessing = false → s.grid.length = s.cards.length →
      (flipCard s index).threw = true) := by
  have hna : accepts s index = false := by
    unfold accepts
    simp [h]
  refine ⟨(flipCard_state_of_not_accepts s index hna).1,
    (flipCard_state_of_not_accepts s index hna).2, ?_, ?_⟩
  · intro hp
    unfold flipCard
    simp [hp]
  · intro hp hlen
    have hg : nth? s.grid index = none := by
      unfold nth? at h ⊢
      split
      · rfl
      · rename_i hneg
        rw [if_neg hneg] at h
        rw [List.getElem?_eq_none_iff] at h ⊢
        omega
    unfold flipCard
    simp [hp, hg]
theorem nth?_eq_some {α : Type} (xs : List α) (index : Int) (a : α)
    (h : nth? xs index = some a) : 0 ≤ index ∧ xs[index.toNat]? = some a := by
  unfold nth? at h
  split at h
  · exact absurd h (by simp)
  · exact ⟨by omega, h⟩

theorem accepts_iff {σ : Type} (s : Game σ) (index : Int) :
    accepts s index = true ↔
      s.isProcessing = false ∧ (∃ e, nth? s.grid index = some e ∧ e.flipped = false) ∧
      (∃ c, nth? s.cards index = some c ∧ c.matched = false) ∧
      s.flippedCards.length < 2 := by
  unfold accepts
  cases hg : nth? s.grid index <;> cases hc : nth? s.cards index <;> simp [and_assoc]

theorem checkMatch_of_pair {σ : Type} [DecidableEq σ] (s : Game σ) (f g : Flipped)
    (c1 c2 : Card σ) (hsel : s.flippedCards = [f, g]) (h1 : s.cards[f.index]? = some c1)
    (h2 : s.cards[g.index]? = some c2) :
    checkMatch s =
      if c1.symbol = c2.symbol then
        ⟨{ s with isProcessing := true,
                  timers := s.timers ++ [Timer.resolveMatch f g s.deckGen] },
          [Signal.correct], false⟩
      else
        ⟨{ s with isProcessing := true, timers := s.timers ++ [Timer.resolveMismatch f g] },
          [Signal.wrong], false⟩ := by
  unfold checkMatch
  simp only [hsel, h1, h2]

theorem inv_init {σ : Type} (rand : Nat → Nat) (base : Game σ) (hbase : Blank base) :
    Inv (init rand base) := by
  obtain ⟨hsel, hmp, -, -, htm⟩ := hbase
  have hperm := createCards_perm rand base
  have hcards : (init rand base).cards = (createCards rand base).cards := rfl
  refine ⟨?_, ?_, ?_, ?_, ?_, ?_, ?_⟩
  · simp [init, renderCards]
  · rw [hcards, hperm.length_eq, pairCards_length]; rfl
  · have h0 : countMatched (init rand base).cards = 0 := by
      unfold countMatched
      rw [List.countP_eq_zero]
      intro c hc
      rw [hcards] at hc
      simp [pairCards_unmatched 0 _ c (hperm.mem_iff.mp hc)]
    rw [h0]
    show 2 * base.matchedPairs = 0
    rw [hmp]
  · intro f hf
    have : (init rand base).flippedCards = [] := hsel
    rw [this] at hf
    exact absurd hf (List.not_mem_nil _)
  · have : (init rand base).flippedCards = [] := hsel
    rw [this]
    exact List.nodup_nil
  · intro t ht
    have : (init rand base).timers = [] := htm
    rw [this] at ht
    exact absurd ht (List.not_mem_nil _)
  · have : (init rand base).timers = [] := htm
    rw [this]
    exact Nat.zero_le _

theorem idle_timers_win {σ : Type} (s : Game σ) (hinv : Inv s) (hp : s.isProcessing = false) :
    ∀ t ∈ s.timers, t = Timer.win := by
  intro t ht
  by_contra hne
  have := (hinv.pending t ht hne).1
  rw [hp] at this
  exact absurd this (by simp)

/-- The state right after an accepted flip pushed its entry (line 134). -/
theorem inv_reveal {σ : Type} (s : Game σ) (hinv : Inv s) (index : Int)
    (ha : accepts s index = true) : Inv (reveal s index.toNat) := by
  obtain ⟨hp, ⟨e, hg, hef⟩, ⟨c, hc, hcm⟩, -⟩ := (accepts_iff s index).mp ha
  have hg' := (nth?_eq_some _ _ _ hg).2
  have hc' := (nth?_eq_some _ _ _ hc).2
  refine ⟨?_, hinv.deck_len, hinv.pairs, ?_, ?_, ?_, hinv.one_pending⟩
  · simp only [reveal, List.length_modify]
    exact hinv.grid_len
  · intro f hf
    simp only [reveal, List.mem_append, List.mem_singleton] at hf
    rcases hf with hf | rfl
    · obtain ⟨hd, ⟨e', he', hfl⟩, hcard⟩ := hinv.sel f hf
      refine ⟨hd, ?_, hcard⟩
      simp only [reveal, List.getElem?_modify, he', Option.map_eq_map, Option.map_some']
      by_cases hi : index.toNat = f.index
      · exact ⟨_, by rw [if_pos hi], rfl⟩
      · exact ⟨_, by rw [if_neg hi], hfl⟩
    · refine ⟨rfl, ?_, ⟨c, hc', hcm⟩⟩
      simp only [reveal, List.getElem?_modify, hg', Option.map_eq_map, Option.map_some',
        if_true]
      exact ⟨_, rfl, rfl⟩
  · simp only [reveal, List.map_append, List.map_cons, List.map_nil]
    rw [List.nodup_append]
    refine ⟨hinv.sel_nodup, List.nodup_singleton _, ?_⟩
    intro a ha1 ha2
    simp only [List.mem_singleton] at ha2
    subst ha2
    obtain ⟨f, hf, hfi⟩ := List.mem_map.mp ha1
    obtain ⟨-, ⟨e', he', hfl⟩, -⟩ := hinv.sel f hf
    rw [hfi, hg'] at he'
    have : e = e' := Option.some.inj he'
    rw [← this, hef] at hfl
    exact absurd hfl (by simp)
  · intro t ht hne
    exact absurd (idle_timers_win s hinv hp t ht) hne

theorem inv_flipCard {σ : Type} [DecidableEq σ] (s : Game σ) (hinv : Inv s) (index : Int) :
    Inv (flipCard s index).state := by
  cases ha : accepts s index with
  | false => rw [(flipCard_state_of_not_accepts s index ha).1]; exact hinv
  | true =>
    have hpush := inv_reveal s hinv index ha
    obtain ⟨hp, -, ⟨c, hc, hcm⟩, hlen⟩ := (accepts_iff s index).mp ha
    have hc' := (nth?_eq_some _ _ _ hc).2
    rw [flipCard_of_accepts s index ha]
    split
    · rename_i h2
      obtain ⟨f, hf⟩ : ∃ f, s.flippedCards = [f] := by
        rw [reveal_length] at h2
        exact List.length_eq_one.mp (by omega)
      obtain ⟨-, -, ⟨c1, hc1, -⟩⟩ := hinv.sel f (by rw [hf]; exact List.mem_singleton_self _)
      have hwin := idle_timers_win s hinv hp
      have hsel2 : (countMove (reveal s index.toNat)).flippedCards =
          [f, ⟨index.toNat, s.domGen⟩] := by
        simp only [countMove, reveal, hf]; rfl
      rw [checkMatch_of_pair (countMove (reveal s index.toNat)) f ⟨index.toNat, s.domGen⟩ c1 c
        hsel2 hc1 hc']
      have hfilter : ∀ t : Timer, t ≠ Timer.win →
          ((s.timers ++ [t]).filter (fun t => decide (t ≠ Timer.win))).length ≤ 1 := by
        intro t ht
        rw [List.filter_append, filter_nonwin_of_all_win _ hwin]
        simp [ht]
      split
      · rename_i hsym
        refine ⟨hpush.grid_len, hpush.deck_len, hpush.pairs, hpush.sel, hpush.sel_nodup,
          ?_, hfilter _ (by simp)⟩
        intro t ht hne
        simp only [countMove, reveal, List.mem_append, List.mem_singleton] at ht
        rcases ht with ht | rfl
        · exact absurd (hwin t ht) hne
        · exact ⟨rfl, f, ⟨index.toNat, s.domGen⟩, hsel2, Or.inl rfl⟩
      · rename_i hsym
        refine ⟨hpush.grid_len, hpush.deck_len, hpush.pairs, hpush.sel, hpush.sel_nodup,
          ?_, hfilter _ (by simp)⟩
        intro t ht hne
        simp only [countMove, reveal, List.mem_append, List.mem_singleton] at ht
        rcases ht with ht | rfl
        · exact absurd (hwin t ht) hne
        · exact ⟨rfl, f, ⟨index.toNat, s.domGen⟩, hsel2,
            Or.inr ⟨rfl, c1, c, hc1, hc', hsym⟩⟩
    · exact hpush
theorem runTimer_match_current {σ : Type} (s : Game σ) (f g : Flipped)
    (hf : f.domGen = s.domGen) (hg : g.domGen = s.domGen) :
    runTimer s (Timer.resolveMatch f g s.deckGen) =
      { s with
        grid := markTile (markTile s.grid f.index) g.index,
        cards := markCard (markCard s.cards f.index) g.index,
        matchedPairs := s.matchedPairs + 1, flippedCards := [], isProcessing := false,
        timers := if s.matchedPairs + 1 = s.symbols.length then s.timers ++ [Timer.win]
                  else s.timers } := by
  simp only [runTimer, onElement, onCard, hf, hg, if_true]
  split <;> rfl

theorem runTimer_mismatch_current {σ : Type} (s : Game σ) (f g : Flipped)
    (hf : f.domGen = s.domGen) (hg : g.domGen = s.domGen) :
    runTimer s (Timer.resolveMismatch f g) =
      { s with
        grid := unflipTile (unflipTile s.grid f.index) g.index,
        flippedCards := [], isProcessing := false } := by
  simp only [runTimer, onElement, hf, hg, if_true]

theorem inv_fireTimer {σ : Type} (s : Game σ) (hinv : Inv s) (k : Nat) :
    Inv (fireTimer s k) := by
  unfold fireTimer
  cases hk : s.timers[k]? with
  | none => exact hinv
  | some t =>
    have hmem : t ∈ s.timers := List.getElem?_mem hk
    simp only
    by_cases hw : t = Timer.win
    · subst hw
      refine ⟨hinv.grid_len, hinv.deck_len, hinv.pairs, hinv.sel, hinv.sel_nodup, ?_, ?_⟩
      · intro t ht hne
        exact hinv.pending t (List.mem_of_mem_eraseIdx ht) hne
      · exact Nat.le_trans ((List.eraseIdx_sublist _ _).filter _).length_le hinv.one_pending
    · obtain ⟨hp, f, g, hsel, hform⟩ := hinv.pending t hmem hw
      have hrest := others_win s.timers k t hk hw hinv.one_pending
      obtain ⟨hfd, -, ⟨c1, hc1, hm1⟩⟩ := hinv.sel f (by rw [hsel]; simp)
      obtain ⟨hgd, -, ⟨c2, hc2, hm2⟩⟩ := hinv.sel g (by rw [hsel]; simp)
      have hnd := hinv.sel_nodup
      rw [hsel] at hnd
      have hne : f.index ≠ g.index := by
        intro h
        simp [h] at hnd
      rcases hform with rfl | ⟨rfl, -⟩
      · have := runTimer_match_current { s with timers := s.timers.eraseIdx k } f g hfd hgd
        simp only at this
        rw [this]
        refine ⟨?_, ?_, ?_, ?_, ?_, ?_, ?_⟩
        · simp only [markTile, markCard, List.length_modify]
          exact hinv.grid_len
        · simp only [markCard, List.length_modify]
          exact hinv.deck_len
        · simp only
          have h2 : (markCard s.cards f.index)[g.index]? = some c2 := by
            rw [markCard_getElem?, hc2, Option.map_eq_map, Option.map_some', if_neg hne]
          rw [countMatched_markCard _ _ c2 h2 hm2, countMatched_markCard _ _ c1 hc1 hm1]
          have := hinv.pairs
          omega
        · intro x hx
          exact absurd hx (List.not_mem_nil _)
        · exact List.nodup_nil
        · intro t ht hnw
          simp only at ht
          split at ht
          · rcases List.mem_append.mp ht with ht | ht
            · exact absurd (hrest t ht) hnw
            · exact absurd (List.mem_singleton.mp ht) hnw
          · exact absurd (hrest t ht) hnw
        · simp only
          split
          · rw [List.filter_append, filter_nonwin_of_all_win _ hrest]
            simp
          · rw [filter_nonwin_of_all_win _ hrest]
            simp
      · have := runTimer_mismatch_current { s with timers := s.timers.eraseIdx k } f g hfd hgd
        simp only at this
        rw [this]
        refine ⟨?_, hinv.deck_len, hinv.pairs, ?_, ?_, ?_, ?_⟩
        · simp only [unflipTile, List.length_modify]
          exact hinv.grid_len
        · intro x hx
          exact absurd hx (List.not_mem_nil _)
        · exact List.nodup_nil
        · intro t ht hnw
          exact absurd (hrest t ht) hnw
        · simp only
          rw [filter_nonwin_of_all_win _ hrest]
          simp

theorem inv_step {σ : Type} [DecidableEq σ] (s : Game σ) (hinv : Inv s) (e : Event) :
    Inv (step s e) := by
  cases e with
  | flip index => exact inv_flipCard s hinv index
  | timer k => exact inv_fireTimer s hinv k

theorem inv_run {σ : Type} [DecidableEq σ] (s : Game σ) (hinv : Inv s) (events : List Event) :
    Inv (run s events) := by
  induction events generalizing s with
  | nil => exact hinv
  | cons e rest ih => exact ih (step s e) (inv_step s hinv e)
theorem onElement_frame {σ : Type} (s : Game σ) (f : Flipped)
    (op : List CardElement → Nat → List CardElement) :
    onElement s f op = { s with grid := (onElement s f op).grid } := by
  unfold onElement
  split <;> rfl

theorem onCard_frame {σ : Type} (s : Game σ) (d i : Nat) :
    onCard s d i = { s with cards := (onCard s d i).cards } := by
  unfold onCard
  split <;> rfl

/-- What the match callback does to the fields outside the deck and the grid. -/
theorem runTimer_match_frame {σ : Type} (s : Game σ) (f g : Flipped) (d : Nat) :
    runTimer s (Timer.resolveMatch f g d) =
      { s with
        grid := (runTimer s (Timer.resolveMatch f g d)).grid,
        cards := (runTimer s (Timer.resolveMatch f g d)).cards,
        matchedPairs := s.matchedPairs + 1, flippedCards := [], isProcessing := false,
        timers := if s.matchedPairs + 1 = s.symbols.length then s.timers ++ [Timer.win]
                  else s.timers } := by
  simp only [runTimer]
  rw [onCard_frame, onCard_frame (onElement _ _ _), onElement_frame,
    onElement_frame s]
  simp only
  split <;> rfl

/-- What the mismatch callback does to the fields outside the grid. -/
theorem runTimer_mismatch_frame {σ : Type} (s : Game σ) (f g : Flipped) :
    runTimer s (Timer.resolveMismatch f g) =
      { s with
        grid := (runTimer s (Timer.resolveMismatch f g)).grid,
        flippedCards := [], isProcessing := false } := by
  simp only [runTimer]
  rw [onElement_frame, onElement_frame s]

theorem flipCard_frame {σ : Type} [DecidableEq σ] (s : Game σ) (index : Int) :
    (flipCard s index).state =
      { s with
        grid := (flipCard s index).state.grid,
        flippedCards := (flipCard s index).state.flippedCards,
        totalMoves := (flipCard s index).state.totalMoves,
        isProcessing := (flipCard s index).state.isProcessing,
        timers := (flipCard s index).state.timers } := by
  cases ha : accepts s index with
  | false => rw [(flipCard_state_of_not_accepts s index ha).1]
  | true =>
    rw [flipCard_of_accepts s index ha]
    split
    · simp only
      rw [checkMatch_frame]
      rfl
    · rfl

theorem checkMatch_countWin {σ : Type} [DecidableEq σ] (s : Game σ) :
    countWin (checkMatch s).state.timers = countWin s.timers := by
  unfold checkMatch
  dsimp only
  repeat' split
  all_goals simp [countWin]

theorem flipCard_countWin {σ : Type} [DecidableEq σ] (s : Game σ) (index : Int) :
    countWin (flipCard s index).state.timers = countWin s.timers := by
  cases ha : accepts s index with
  | false => rw [(flipCard_state_of_not_accepts s index ha).1]
  | true =>
    rw [flipCard_of_accepts s index ha]
    split
    · simp only
      rw [checkMatch_countWin]
      rfl
    · rfl

theorem countWin_eraseIdx (ts : List Timer) (k : Nat) (t : Timer) (hk : ts[k]? = some t) :
    countWin (ts.eraseIdx k) + (if t = Timer.win then 1 else 0) = countWin ts := by
  induction ts generalizing k with
  | nil => simp at hk
  | cons a rest ih =>
    cases k with
    | zero =>
      simp only [List.getElem?_cons_zero, Option.some.injEq] at hk
      subst hk
      simp only [List.eraseIdx_cons_zero, countWin, List.count_cons, beq_iff_eq]
    | succ k =>
      simp only [List.getElem?_cons_succ] at hk
      have := ih k hk
      simp only [List.eraseIdx_cons_succ, countWin, List.count_cons] at this ⊢
      omega

/-- One event of a game in any state: `matchedPairs` grows by one at the expiration of a
match callback and is unchanged otherwise, and a win callback is added exactly when a match
callback expires and the count then equals the alphabet size. -/
theorem step_matchedPairs {σ : Type} [DecidableEq σ] (s : Game σ) (e : Event) :
    (step s e).symbols = s.symbols ∧
    (isMatchExpiry s e = true → (step s e).matchedPairs = s.matchedPairs + 1) ∧
    (isMatchExpiry s e = false → (step s e).matchedPairs = s.matchedPairs) ∧
    (countWin s.timers < countWin (step s e).timers ↔
      isMatchExpiry s e = true ∧ (step s e).matchedPairs = s.symbols.length) := by
  cases e with
  | flip index =>
    have hfr := flipCard_frame s index
    have hmp : (flipCard s index).state.matchedPairs = s.matchedPairs := by rw [hfr]
    have hsy : (flipCard s index).state.symbols = s.symbols := by rw [hfr]
    refine ⟨hsy, fun h => by simp [isMatchExpiry] at h, fun _ => hmp, ?_⟩
    simp only [step, isMatchExpiry, flipCard_countWin, lt_irrefl, Bool.false_eq_true,
      false_and]
  | timer k =>
    simp only [step, isMatchExpiry, fireTimer]
    cases hk : s.timers[k]? with
    | none => simp
    | some t =>
      have hcw := countWin_eraseIdx s.timers k t hk
      cases t with
      | resolveMatch f g d =>
        simp only
        rw [runTimer_match_frame]
        simp only [true_and, if_false, reduceCtorEq] at hcw ⊢
        refine ⟨fun _ => trivial, ?_⟩
        by_cases hN : s.matchedPairs + 1 = s.symbols.length
        · simp only [hN, if_true, iff_true]
          simp only [countWin, List.count_append] at hcw ⊢
          simp
          omega
        · simp only [hN, if_false, iff_false]
          exact ⟨fun h => h.elim, by omega⟩
      | resolveMismatch f g =>
        simp only
        rw [runTimer_mismatch_frame]
        simp only [if_false, reduceCtorEq] at hcw
        simp only [Bool.false_eq_true, false_and, iff_false, false_implies, true_and,
          implies_true]
        omega
      | win =>
        simp only [runTimer, Bool.false_eq_true, false_and, iff_false, false_implies,
          true_and, implies_true]
        omega

theorem run_symbols {σ : Type} [DecidableEq σ] (s : Game σ) (events : List Event) :
    (run s events).symbols = s.symbols := by
  induction events generalizing s with
  | nil => rfl
  | cons e rest ih =>
    show (run (step s e) rest).symbols = s.symbols
    rw [ih, (step_matchedPairs s e).1]

/-- C4. In every state of one game that started from a freshly generated deck,
`2 * matchedPairs` is the number of matched cards, so `matchedPairs` is at most the alphabet
size `N`; one further event never decreases `matchedPairs`, adds exactly 1 to it when it is
the expiration of a match callback and leaves it unchanged otherwise; the win callback is
scheduled exactly by the match expiration after which `matchedPairs = N`; and
`matchedPairs = N` holds exactly when all `2N` cards are matched. -/
theorem matchedPairs_counts_matches {σ : Type} [DecidableEq σ] (rand : Nat → Nat)
    (base : Game σ) (hbase : Blank base) (events : List Event) (e : Event) (s : Game σ)
    (hs : s = run (init rand base) events) :
    2 * s.matchedPairs = countMatched s.cards ∧
    s.cards.length = 2 * base.symbols.length ∧
    s.matchedPairs ≤ base.symbols.length ∧
    s.matchedPairs ≤ (step s e).matchedPairs ∧
    (isMatchExpiry s e = true → (step s e).matchedPairs = s.matchedPairs + 1) ∧
    (isMatchExpiry s e = false → (step s e).matchedPairs = s.matchedPairs) ∧
    (countWin s.timers < countWin (step s e).timers ↔
      isMatchExpiry s e = true ∧ (step s e).matchedPairs = base.symbols.length) ∧
    (s.matchedPairs = base.symbols.length ↔
      s.cards.length = 2 * base.symbols.length ∧ ∀ c ∈ s.cards, c.matched = true) := by
  have hinv : Inv s := hs ▸ inv_run _ (inv_init rand base hbase) events
  have hsym : s.symbols = base.symbols := by
    rw [hs, run_symbols]
    rfl
  have hlen := hinv.deck_len
  have hpairs := hinv.pairs
  have hle := countMatched_le s.cards
  obtain ⟨-, h1, h2, h3⟩ := step_matchedPairs s e
  rw [hsym] at hlen h3
  refine ⟨hpairs, hlen, by omega, ?_, h1, h2, h3, ?_⟩
  · cases hm : isMatchExpiry s e with
    | true => rw [h1 hm]; omega
    | false => rw [h2 hm]
  · rw [← countMatched_eq_length]
    constructor
    · intro h
      exact ⟨hlen, by omega⟩
    · intro h
      omega
theorem unflipTile_getElem? (g : List CardElement) (i j : Nat) :
    (unflipTile g i)[j]? =
      (fun e => if i = j then { e with flipped := false } else e) <$> g[j]? := by
  unfold unflipTile
  exact List.getElem?_modify _ _ _ _

theorem nth?_natCast {α : Type} (xs : List α) (n : Nat) : nth? xs (n : Int) = xs[n]? := by
  unfold nth?
  rw [if_neg (by omega), Int.toNat_ofNat]

/-- C5. In a game that started from a freshly generated deck, a pending mismatch callback
is that of the two selected cards, both revealed and carrying different symbols.  When it expires both cards are unrevealed and unmatched, the selection is empty,
the processing flag is clear, `matchedPairs` and `totalMoves` are as just before, and a flip
request on either of the two cards is accepted. -/
theorem mismatch_recovery {σ : Type} [DecidableEq σ] (rand : Nat → Nat) (base : Game σ)
    (hbase : Blank base) (events : List Event) (s : Game σ)
    (hs : s = run (init rand base) events) (k : Nat) (f g : Flipped)
    (hk : s.timers[k]? = some (Timer.resolveMismatch f g)) :
    (s.flippedCards = [f, g] ∧ s.isProcessing = true ∧
      ∃ c1 c2, s.cards[f.index]? = some c1 ∧ s.cards[g.index]? = some c2 ∧
        c1.symbol ≠ c2.symbol) ∧
    (∃ e1 e2, s.grid[f.index]? = some e1 ∧ e1.flipped = true ∧
      s.grid[g.index]? = some e2 ∧ e2.flipped = true) ∧
    (∃ e1 e2, (fireTimer s k).grid[f.index]? = some e1 ∧ e1.flipped = false ∧
      (fireTimer s k).grid[g.index]? = some e2 ∧ e2.flipped = false) ∧
    (∃ c1 c2, (fireTimer s k).cards[f.index]? = some c1 ∧ c1.matched = false ∧
      (fireTimer s k).cards[g.index]? = some c2 ∧ c2.matched = false) ∧
    (fireTimer s k).flippedCards = [] ∧
    (fireTimer s k).isProcessing = false ∧
    (fireTimer s k).matchedPairs = s.matchedPairs ∧
    (fireTimer s k).totalMoves = s.totalMoves ∧
    accepts (fireTimer s k) f.index = true ∧
    accepts (fireTimer s k) g.index = true ∧
    (flipCard (fireTimer s k) f.index).signals = [Signal.flip] ∧
    (flipCard (fireTimer s k) f.index).state.flippedCards = [⟨f.index, s.domGen⟩] ∧
    (flipCard (fireTimer s k) g.index).signals = [Signal.flip] ∧
    (flipCard (fireTimer s k) g.index).state.flippedCards = [⟨g.index, s.domGen⟩] := by
  have hinv : Inv s := hs ▸ inv_run _ (inv_init rand base hbase) events
  obtain ⟨hp, f', g', hsel, hform⟩ :=
    hinv.pending _ (List.getElem?_mem hk) (by simp)
  rcases hform with h | ⟨h, hsym⟩
  · exact absurd h (by simp)
  obtain ⟨rfl, rfl⟩ : f = f' ∧ g = g' := by simpa using h
  obtain ⟨hfd, ⟨e1, he1, hf1⟩, ⟨c1, hc1, hm1⟩⟩ := hinv.sel f (by rw [hsel]; simp)
  obtain ⟨hgd, ⟨e2, he2, hf2⟩, ⟨c2, hc2, hm2⟩⟩ := hinv.sel g (by rw [hsel]; simp)
  have hnd := hinv.sel_nodup
  rw [hsel] at hnd
  have hne : f.index ≠ g.index := by
    intro h
    simp [h] at hnd
  have hfire : fireTimer s k =
      { s with
        timers := s.timers.eraseIdx k,
        grid := unflipTile (unflipTile s.grid f.index) g.index,
        flippedCards := [], isProcessing := false } := by
    unfold fireTimer
    rw [hk]
    exact runTimer_mismatch_current { s with timers := s.timers.eraseIdx k } f g hfd hgd
  have hg1 : (fireTimer s k).grid[f.index]? = some { e1 with flipped := false } := by
    rw [hfire]
    simp only [unflipTile_getElem?, he1, Option.map_eq_map, Option.map_some', if_true,
      if_neg (Ne.symm hne)]
  have hg2 : (fireTimer s k).grid[g.index]? = some { e2 with flipped := false } := by
    rw [hfire]
    simp only [unflipTile_getElem?, he2, Option.map_eq_map, Option.map_some', if_true,
      if_neg hne]
  have hcards : (fireTimer s k).cards = s.cards := by rw [hfire]
  have hfc : (fireTimer s k).flippedCards = [] := by rw [hfire]
  have hproc : (fireTimer s k).isProcessing = false := by rw [hfire]
  have hdom : (fireTimer s k).domGen = s.domGen := by rw [hfire]
  have hacc : ∀ (i : Nat) (e : CardElement) (c : Card σ),
      (fireTimer s k).grid[i]? = some e → e.flipped = false → s.cards[i]? = some c →
      c.matched = false →
      accepts (fireTimer s k) i = true ∧
      (flipCard (fireTimer s k) i).signals = [Signal.flip] ∧
      (flipCard (fireTimer s k) i).state.flippedCards = [⟨i, s.domGen⟩] := by
    intro i e c hgi hef hci hcm
    have ha : accepts (fireTimer s k) i = true := by
      rw [accepts_iff]
      refine ⟨hproc, ⟨e, by rw [nth?_natCast]; exact hgi, hef⟩,
        ⟨c, by rw [nth?_natCast, hcards]; exact hci, hcm⟩, by rw [hfc]; decide⟩
    refine ⟨ha, ?_⟩
    rw [flipCard_of_accepts _ _ ha, if_neg (by rw [reveal_length, hfc]; decide)]
    simp only [reveal, hfc, hdom, Int.toNat_ofNat, List.nil_append, and_self]
  obtain ⟨a1, a2, a3⟩ := hacc f.index _ c1 hg1 rfl hc1 hm1
  obtain ⟨b1, b2, b3⟩ := hacc g.index _ c2 hg2 rfl hc2 hm2
  refine ⟨⟨hsel, hp, hsym⟩, ⟨e1, e2, he1, hf1, he2, hf2⟩, ⟨_, _, hg1, rfl, hg2, rfl⟩,
    ⟨c1, c2, by rw [hcards]; exact hc1, hm1, by rw [hcards]; exact hc2, hm2⟩,
    hfc, hproc, by rw [hfire], by rw [hfire], a1, b1, a2, a3, b2, b3⟩
theorem step_gens {σ : Type} [DecidableEq σ] (s : Game σ) (e : Event) :
    (step s e).deckGen = s.deckGen ∧ (step s e).domGen = s.domGen := by
  cases e with
  | flip index =>
    have hfr := flipCard_frame s index
    exact ⟨by rw [step, hfr], by rw [step, hfr]⟩
  | timer k =>
    simp only [step, fireTimer]
    cases hk : s.timers[k]? with
    | none => exact ⟨rfl, rfl⟩
    | some t =>
      cases t with
      | resolveMatch f g d =>
        simp only
        rw [runTimer_match_frame]
        exact ⟨rfl, rfl⟩
      | resolveMismatch f g =>
        simp only
        rw [runTimer_mismatch_frame]
        exact ⟨rfl, rfl⟩
      | win => exact ⟨rfl, rfl⟩

theorem run_gens {σ : Type} [DecidableEq σ] (s : Game σ) (events : List Event) :
    (run s events).deckGen = s.deckGen ∧ (run s events).domGen = s.domGen := by
  induction events generalizing s with
  | nil => exact ⟨rfl, rfl⟩
  | cons e rest ih =>
    have h1 := ih (step s e)
    have h2 := step_gens s e
    exact ⟨h1.1.trans h2.1, h1.2.trans h2.2⟩

theorem onElement_stale {σ : Type} (s : Game σ) (f : Flipped)
    (op : List CardElement → Nat → List CardElement) (h : f.domGen ≠ s.domGen) :
    onElement s f op = s := by
  unfold onElement
  rw [if_neg h]

theorem onCard_stale {σ : Type} (s : Game σ) (d i : Nat) (h : d ≠ s.deckGen) :
    onCard s d i = s := by
  unfold onCard
  rw [if_neg h]

/-- C8 (as amended). A callback whose captured objects all predate a new game (started by
`resetGame`, or by `newGame` and `selectTheme`) reaches nothing of the new deck or grid when
it expires later in that game: the cards of the new deck (with their matched flags), the
marks of the new tiles, `totalMoves` and the alphabet are unchanged.  An old mismatch
callback also leaves `matchedPairs` unchanged and schedules nothing.  Old match and mismatch
callbacks do empty the selection and clear the processing flag, and an old match callback
adds 1 to `matchedPairs` and schedules the win callback when the count then equals the
alphabet size. -/
theorem old_timer_after_new_game {σ : Type} [DecidableEq σ] (rand : Nat → Nat) (s : Game σ)
    (theme : String) (s1 : Game σ)
    (hnew : s1 = resetGame rand s ∨ selectTheme rand (newGame s) theme = some s1)
    (events : List Event) (s2 : Game σ) (hs2 : s2 = run s1 events) (k : Nat) (t : Timer)
    (hk : s2.timers[k]? = some t) (hold : t.capturedBy s) :
    (fireTimer s2 k).cards = s2.cards ∧
    (fireTimer s2 k).grid = s2.grid ∧
    (fireTimer s2 k).totalMoves = s2.totalMoves ∧
    (fireTimer s2 k).symbols = s2.symbols ∧
    (∀ f g, t = Timer.resolveMismatch f g →
      (fireTimer s2 k).matchedPairs = s2.matchedPairs ∧
      (fireTimer s2 k).timers = s2.timers.eraseIdx k) ∧
    (∀ f g d, t = Timer.resolveMatch f g d →
      (fireTimer s2 k).matchedPairs = s2.matchedPairs + 1 ∧
      (fireTimer s2 k).timers =
        if s2.matchedPairs + 1 = s2.symbols.length then s2.timers.eraseIdx k ++ [Timer.win]
        else s2.timers.eraseIdx k) ∧
    (t ≠ Timer.win →
      (fireTimer s2 k).flippedCards = [] ∧ (fireTimer s2 k).isProcessing = false) := by
  have hgen1 : s1.deckGen = s.deckGen + 1 ∧ s1.domGen = s.domGen + 1 := by
    rcases hnew with h | h
    · rw [h]; exact ⟨rfl, rfl⟩
    · unfold selectTheme at h
      split at h
      · exact absurd h (by simp)
      · have := Option.some.inj h
        rw [← this]
        exact ⟨rfl, rfl⟩
  have hgen2 := run_gens s1 events
  rw [← hs2] at hgen2
  have hdeck : s2.deckGen = s.deckGen + 1 := hgen2.1.trans hgen1.1
  have hdom : s2.domGen = s.domGen + 1 := hgen2.2.trans hgen1.2
  have hdeck' : ∀ u : List Timer, ({ s2 with timers := u } : Game σ).deckGen = s.deckGen + 1 :=
    fun _ => hdeck
  have hdom' : ∀ u : List Timer, ({ s2 with timers := u } : Game σ).domGen = s.domGen + 1 :=
    fun _ => hdom
  have hfire : fireTimer s2 k = runTimer { s2 with timers := s2.timers.eraseIdx k } t := by
    unfold fireTimer
    rw [hk]
  rw [hfire]
  cases t with
  | resolveMatch f g d =>
    obtain ⟨h1, h2, h3⟩ := hold
    have e1 : onElement { s2 with timers := s2.timers.eraseIdx k } f markTile =
        { s2 with timers := s2.timers.eraseIdx k } :=
      onElement_stale _ _ _ (by rw [hdom']; omega)
    have e2 : onElement { s2 with timers := s2.timers.eraseIdx k } g markTile =
        { s2 with timers := s2.timers.eraseIdx k } :=
      onElement_stale _ _ _ (by rw [hdom']; omega)
    have e3 : ∀ i, onCard { s2 with timers := s2.timers.eraseIdx k } d i =
        { s2 with timers := s2.timers.eraseIdx k } :=
      fun i => onCard_stale _ _ _ (by rw [hdeck']; omega)
    simp only [runTimer, e1, e2, e3]
    refine ⟨?_, ?_, ?_, ?_, ?_, ?_, ?_⟩
    · split <;> rfl
    · split <;> rfl
    · split <;> rfl
    · split <;> rfl
    · intro f' g' h
      exact absurd h (by simp)
    · intro f' g' d' _
      constructor
      · split <;> rfl
      · split <;> rfl
    · intro _
      constructor
      · split <;> rfl
      · split <;> rfl
  | resolveMismatch f g =>
    obtain ⟨h1, h2⟩ := hold
    have e1 : onElement { s2 with timers := s2.timers.eraseIdx k } f unflipTile =
        { s2 with timers := s2.timers.eraseIdx k } :=
      onElement_stale _ _ _ (by rw [hdom']; omega)
    have e2 : onElement { s2 with timers := s2.timers.eraseIdx k } g unflipTile =
        { s2 with timers := s2.timers.eraseIdx k } :=
      onElement_stale _ _ _ (by rw [hdom']; omega)
    have hrt : runTimer { s2 with timers := s2.timers.eraseIdx k }
        (Timer.resolveMismatch f g) =
        { s2 with timers := s2.timers.eraseIdx k, flippedCards := [],
                  isProcessing := false } := by
      simp only [runTimer, e1, e2]
    rw [hrt]
    refine ⟨rfl, rfl, rfl, rfl, fun _ _ _ => ⟨rfl, rfl⟩, ?_, fun _ => ⟨rfl, rfl⟩⟩
    intro f' g' d' h
    exact absurd h (by simp)
  | win =>
    have hrt : runTimer { s2 with timers := s2.timers.eraseIdx k } Timer.win =
        { s2 with timers := s2.timers.eraseIdx k, winModalHidden := false } := rfl
    rw [hrt]
    refine ⟨rfl, rfl, rfl, rfl, ?_, ?_, fun h => absurd rfl h⟩
    · intro f' g' h
      exact absurd h (by simp)
    · intro f' g' d' h
      exact absurd h (by simp)

theorem flipCard_empty_deck {σ : Type} [DecidableEq σ] (g : Game σ) (hcards : g.cards = [])
    (index : Int) : (flipCard g index).state = g ∧ (flipCard g index).signals = [] := by
  apply flipCard_state_of_not_accepts
  unfold accepts nth?
  rw [hcards]
  split <;> simp

theorem run_empty_deck {σ : Type} [DecidableEq σ] (g : Game σ) (hcards : g.cards = [])
    (htimers : g.timers = []) (events : List Event) : run g events = g := by
  induction events with
  | nil => rfl
  | cons e rest ih =>
    have hstep : step g e = g := by
      cases e with
      | flip index => exact (flipCard_empty_deck g hcards index).1
      | timer k =>
        simp only [step, fireTimer, htimers, List.getElem?_nil]
    show run (step g e) rest = g
    rw [hstep]
    exact ih

/-- C10 (as amended). Starting a game with an alphabet of size 0 raises no error: the
`selectTheme`, `init`, `createCards` path and `resetGame` return normally with an empty deck
and an empty grid.  On that deck every flip request leaves the state as it was and plays no
cue, and when no timer is pending no sequence of flips and expirations changes the state, so
no win callback is ever scheduled. -/
theorem empty_alphabet_game {σ : Type} [DecidableEq σ] (rand : Nat → Nat) (s : Game σ)
    (theme : String) (g : Game σ)
    (hstart : (lookupTheme s.themes theme = some [] ∧ selectTheme rand s theme = some g) ∨
      (s.symbols = [] ∧ g = resetGame rand s)) :
    g.cards = [] ∧ g.grid = [] ∧ g.symbols = [] ∧
    (∀ index : Int, (flipCard g index).state = g ∧ (flipCard g index).signals = []) ∧
    (s.timers = [] → ∀ events : List Event, run g events = g) := by
  have hfacts : g.cards = [] ∧ g.grid = [] ∧ g.symbols = [] ∧ g.timers = s.timers := by
    rcases hstart with ⟨hl, hsel⟩ | ⟨hsym, rfl⟩
    · unfold selectTheme at hsel
      rw [hl] at hsel
      have := Option.some.inj hsel
      rw [← this]
      exact ⟨rfl, rfl, rfl, rfl⟩
    · have hc : (resetGame rand s).cards = shuffleCards rand (pairCards 0 s.symbols) := rfl
      have hg : (resetGame rand s).grid = (resetGame rand s).cards.map (fun _ => ⟨false, false⟩) :=
        rfl
      rw [hg, hc, hsym]
      exact ⟨rfl, rfl, hsym, rfl⟩
  obtain ⟨hc, hg, hsy, ht⟩ := hfacts
  exact ⟨hc, hg, hsy, fun index => flipCard_empty_deck g hc index,
    fun hs events => run_empty_deck g hc (ht.trans hs) events⟩

/-- C2 at the two-symbol game after one flip: a second request on the revealed card. -/
theorem flipCard_rejected_witness :
    flipCard (run (init id (construct [] [7, 9])) [Event.flip 0]) 0 =
      ⟨run (init id (construct [] [7, 9])) [Event.flip 0], [], false⟩ :=
  flipCard_rejected (run (init id (construct [] [7, 9])) [Event.flip 0]) 0
    ⟨true, false⟩ ⟨0, 7, false⟩ (by decide) (by decide) (Or.inr (Or.inr (Or.inl rfl)))

/-- C3 at the two-symbol game after one flip: the second flip counts one move. -/
theorem totalMoves_counts_comparisons_witness :
    (flipCard (run (init id (construct [] [7, 9])) [Event.flip 0]) 2).state.totalMoves =
      (run (init id (construct [] [7, 9])) [Event.flip 0]).totalMoves + 1 :=
  (totalMoves_counts_comparisons (run (init id (construct [] [7, 9])) [Event.flip 0]) 2 0).1
    (by decide) (by decide)

/-- C4 at the two-symbol game: the expiration of the match callback of cards 0 and 1. -/
theorem matchedPairs_counts_matches_witness :
    Blank (construct ([] : List (String × List Nat)) [7, 9]) ∧
    (step (run (init id (construct [] [7, 9])) [Event.flip 0, Event.flip 1])
      (Event.timer 0)).matchedPairs =
      (run (init id (construct [] [7, 9])) [Event.flip 0, Event.flip 1]).matchedPairs + 1 :=
  ⟨⟨rfl, rfl, rfl, rfl, rfl⟩,
    (matchedPairs_counts_matches id (construct [] [7, 9]) ⟨rfl, rfl, rfl, rfl, rfl⟩
      [Event.flip 0, Event.flip 1] (Event.timer 0) _ rfl).2.2.2.2.1 (by decide)⟩

/-- C5 at the two-symbol game: cards 0 and 2 differ, and their mismatch callback expires. -/
theorem mismatch_recovery_witness :
    (run (init id (construct [] [7, 9])) [Event.flip 0, Event.flip 2]).timers[0]? =
      some (Timer.resolveMismatch ⟨0, 1⟩ ⟨2, 1⟩) ∧
    (fireTimer (run (init id (construct [] [7, 9])) [Event.flip 0, Event.flip 2])
      0).flippedCards = [] :=
  ⟨by decide,
    (mismatch_recovery id (construct [] [7, 9]) ⟨rfl, rfl, rfl, rfl, rfl⟩
      [Event.flip 0, Event.flip 2] _ rfl 0 ⟨0, 1⟩ ⟨2, 1⟩ (by decide)).2.2.2.2.1⟩

/-- C7. In the game started by `new MemoryGame()` and theme `animals` with the identity
draws, after cards 0 and 1 were matched and card 2 was flipped, `newGame` completed by
`selectTheme('cars')` leaves `matchedPairs = 1`, `totalMoves = 1` and one stale entry in
the selection, where `resetGame` leaves `0`, `0` and an empty selection. -/
theorem newGame_keeps_progress :
    (selectTheme id newMemoryGame "animals").bind (fun g =>
      (selectTheme id
          (newGame (run g [Event.flip 0, Event.flip 1, Event.timer 0, Event.flip 2]))
          "cars").map (fun g2 =>
        ((g2.matchedPairs, g2.totalMoves, g2.flippedCards),
         ((resetGame id
            (run g [Event.flip 0, Event.flip 1, Event.timer 0, Event.flip 2])).matchedPairs,
          (resetGame id
            (run g [Event.flip 0, Event.flip 1, Event.timer 0, Event.flip 2])).totalMoves,
          (resetGame id
            (run g [Event.flip 0, Event.flip 1, Event.timer 0,
              Event.flip 2])).flippedCards)))) =
      some ((1, 1, [⟨2, 1⟩]), (0, 0, [])) := by
  decide

/-- C8 fails as stated. In the game started with theme `animals` and the identity draws,
cards 0 and 1 match; `resetGame` runs while their match callback is pending; the callback
then expires in the new game and takes `matchedPairs` from 0 to 1. -/
theorem stale_match_timer_counts :
    (selectTheme id newMemoryGame "animals").map (fun g =>
      ((run g [Event.flip 0, Event.flip 1]).timers,
       (resetGame id (run g [Event.flip 0, Event.flip 1])).matchedPairs,
       (fireTimer (resetGame id (run g [Event.flip 0, Event.flip 1])) 0).matchedPairs)) =
      some ([Timer.resolveMatch ⟨0, 1⟩ ⟨1, 1⟩ 1], 0, 1) := by
  decide

/-- C8 (as amended) at the two-symbol game: the match callback of cards 0 and 1 expires
after `resetGame` and leaves the new deck as it is. -/
theorem old_timer_after_new_game_witness :
    (fireTimer (resetGame id
      (run (init id (construct [] [7, 9])) [Event.flip 0, Event.flip 1])) 0).cards =
      (resetGame id (run (init id (construct [] [7, 9])) [Event.flip 0, Event.flip 1])).cards :=
  (old_timer_after_new_game id
    (run (init id (construct [] [7, 9])) [Event.flip 0, Event.flip 1]) "" _ (Or.inl rfl) []
    _ rfl 0 (Timer.resolveMatch ⟨0, 1⟩ ⟨1, 1⟩ 1) (by decide)
    ⟨by decide, by decide, by decide⟩).1

/-- C9 fails as stated. In the game started with theme `animals`, position 16 is outside
the deck of 16 cards and `flipCard(16)` ends in a `TypeError`; so does `flipCard(-1)`. -/
theorem flipCard_beyond_deck_throws :
    (selectTheme id newMemoryGame "animals").map (fun g =>
      (g.cards.length, nth? g.cards 16, (flipCard g 16).threw, (flipCard g (-1)).threw)) =
      some (16, none, true, true) := by
  decide

/-- C9 (as amended) at the two-symbol game and position 4. -/
theorem flipCard_out_of_range_witness :
    (flipCard (init id (construct [] [7, 9])) 4).state = init id (construct [] [7, 9]) ∧
    (flipCard (init id (construct [] [7, 9])) 4).threw = true :=
  ⟨(flipCard_out_of_range (init id (construct [] [7, 9])) 4 (by decide)).1,
    (flipCard_out_of_range (init id (construct [] [7, 9])) 4 (by decide)).2.2.2 rfl rfl⟩

/-- C10 fails as stated. With a theme table whose theme `blank` is the empty alphabet,
`selectTheme('blank')` and `resetGame` return normally and leave an empty deck. -/
theorem empty_alphabet_starts :
    (selectTheme id (construct [("blank", ([] : List String))] []) "blank").map
      (fun g => (g.cards, g.grid, g.symbols)) = some ([], [], []) ∧
    (resetGame id (construct [("blank", ([] : List String))] [])).cards = [] := by
  decide

/-- C10 (as amended) at the theme table whose theme `blank` is the empty alphabet. -/
theorem empty_alphabet_game_witness :
    (resetGame id (construct [("blank", ([] : List Nat))] [])).cards = [] ∧
    ∀ events : List Event,
      run (resetGame id (construct [("blank", ([] : List Nat))] [])) events =
        resetGame id (construct [("blank", ([] : List Nat))] []) :=
  ⟨(empty_alphabet_game id (construct [("blank", ([] : List Nat))] []) "blank" _
      (Or.inr ⟨rfl, rfl⟩)).1,
    (empty_alphabet_game id (construct [("blank", ([] : List Nat))] []) "blank" _
      (Or.inr ⟨rfl, rfl⟩)).2.2.2.2 rfl⟩

end MemoryGame
